import Mathlib

/-!
Shallow embedding of the sync engine of `parispete/trading`
(`src/data-sourcing/src`): the price store (`database/repository.py`,
`database/schema.py`), the Tiingo client retry loop
(`data_sources/tiingo.py`, `TiingoClient._request`) and the sync service
(`services/sync.py`, `SyncService.backfill` / `SyncService.update`).

Conventions of the embedding:
* calendar dates are integers (days); `date.today()` becomes an explicit
  `today : Int` parameter, `timedelta(days=n)` becomes `+ n`;
* the DECIMAL/BIGINT price columns are integers (their values are copied
  wholesale by the code, never computed with);
* a Python exception raised by a collaborator is an `Except.error` carrying
  the exception text; a `try/except` block becomes a `match` on that value;
* the injected Tiingo client and the wall clock are a record of functions
  (`SyncDeps`), mirroring `SyncService(client)` constructor injection;
* the dictionaries returned by `backfill`/`update` become `SyncOutcome`,
  where an `Option` field is `none` exactly when the Python dict lacks
  the corresponding key.
-/

/-- One row of the `daily_price` table / one Tiingo daily bar
(`schema.py`, `daily_price`; columns in source order, `data_source` and
`created_at` audit defaults omitted).  `open` is a Lean keyword, hence
`open_`. -/
structure Bar where
  price_date : Int
  open_ : Int
  high : Int
  low : Int
  close : Int
  volume : Int
  adj_open : Int
  adj_high : Int
  adj_low : Int
  adj_close : Int
  adj_volume : Int
  div_cash : Int
  split_factor : Int
deriving DecidableEq, Repr

/-- A stored row of `daily_price`: the bar columns plus the `security_id`
foreign key that `insert_prices` stamps onto the DataFrame. -/
structure PriceRow where
  security_id : Nat
  bar : Bar
deriving DecidableEq, Repr

/-- The `PRIMARY KEY (security_id, price_date)` of `daily_price`
(`schema.py` line 65). -/
def rowKey (r : PriceRow) : Nat × Int := (r.security_id, r.bar.price_date)

/-- Whether a stored row matches the `DELETE FROM daily_price WHERE
security_id = ? AND price_date IN (SELECT price_date FROM prices_df)`
predicate of `insert_prices`. -/
def matchesDelete (sid : Nat) (dates : List Int) (r : PriceRow) : Bool :=
  decide (r.security_id = sid ∧ r.bar.price_date ∈ dates)

/-- The primary-key check DuckDB performs on `INSERT INTO daily_price
SELECT * FROM prices_df`: the inserted rows must have pairwise distinct
keys and must not collide with a key already in the table. -/
def insertOk (existing newRows : List PriceRow) : Prop :=
  (newRows.map rowKey).Nodup ∧ ∀ r ∈ newRows, rowKey r ∉ existing.map rowKey

instance (existing newRows : List PriceRow) : Decidable (insertOk existing newRows) := by
  unfold insertOk; infer_instance

/-- Embedding of `repository.insert_prices(security_id, prices_df)`: on an empty frame
return 0 at once; otherwise first `DELETE` the rows of this security whose
`price_date` occurs among the supplied bars' dates, then `INSERT` the
supplied bars.  The two statements auto-commit separately, so when the
insert violates the primary key the delete survives and the error
(Python exception) is reported with the post-delete table.  Returns the
`len(prices_df)` insert count and the new table. -/
def insert_prices (sid : Nat) (df : List Bar) (store : List PriceRow) :
    Except String Nat × List PriceRow :=
  if df.isEmpty then (.ok 0, store)
  else
    let dates := df.map Bar.price_date
    let deleted := store.filter fun r => !(matchesDelete sid dates r)
    let newRows := df.map fun b => PriceRow.mk sid b
    if insertOk deleted newRows then (.ok df.length, deleted ++ newRows)
    else (.error "Constraint Error: duplicate key", deleted)

/-- Embedding of `repository.get_last_price_date(security_id)`:
`SELECT MAX(price_date) FROM daily_price WHERE security_id = ?`. -/
def get_last_price_date (store : List PriceRow) (sid : Nat) : Option Int :=
  ((store.filter fun r => r.security_id == sid).map fun r => r.bar.price_date).max?

/-- Sample bar: date `d`, all price/volume columns `v`, no dividend,
split factor 1. -/
def mkBar (d v : Int) : Bar := ⟨d, v, v, v, v, v, v, v, v, v, v, 0, 1⟩

/-- The set of `daily_price` tables reachable from the empty table by any
sequence of merges, with any security ids and bar sequences. -/
inductive ReachableStore : List PriceRow → Prop
  | init : ReachableStore []
  | step (sid : Nat) (df : List Bar) {s : List PriceRow} :
      ReachableStore s → ReachableStore (insert_prices sid df s).2

-- ## The Tiingo client retry loop (`tiingo.py`, `TiingoClient._request`)

/-- What one `self.session.get(...)` attempt inside `_request` produces:
a 2xx JSON payload, a 429 rate-limit response, a non-2xx status (which
`raise_for_status()` turns into an `HTTPError`, a subclass of
`RequestException`), or a transport-level `RequestException`. -/
inductive HttpResult where
  | success (payload : Nat)
  | rateLimited
  | httpError (status : Nat)
  | transportError (msg : String)
deriving DecidableEq, Repr

/-- How `_request` terminates: a returned JSON payload, a re-raised
`RequestException` (the `raise` on the final failed attempt), or the
`RuntimeError("Failed after N attempts")` reached when the `for` loop
finishes without returning. -/
inductive RequestOutcome where
  | ok (payload : Nat)
  | raised (msg : String)
  | exhausted
deriving DecidableEq, Repr

/-- Observable record of one `_request` call: how many attempts the loop
made, the `time.sleep` durations in order, and the final outcome. -/
structure RequestTrace where
  attempts : Nat
  sleeps : List Nat
  outcome : RequestOutcome
deriving DecidableEq, Repr

/-- Exception text of a failed HTTP attempt. -/
def errText : HttpResult → String
  | .httpError st => "HTTPError " ++ toString st
  | .transportError m => m
  | _ => ""

/-- Whether an attempt's outcome is caught by the
`except requests.exceptions.RequestException` handler of `_request`:
both a transport failure and a non-2xx status turned into an `HTTPError`
by `raise_for_status()` are. -/
def isRetryableErr : HttpResult → Bool
  | .httpError _ => true
  | .transportError _ => true
  | _ => false

/-- The `for attempt in range(self.max_retries)` loop of `_request`.
`attempt` is the current loop index, `remaining` the iterations left
(`maxRetries - attempt`), `sleeps` the sleep log so far.  A 429 sleeps
`60 * (attempt + 1)` and continues; any caught `RequestException`
(including an `HTTPError` from `raise_for_status`) sleeps
`5 * (attempt + 1)` and retries while `attempt < max_retries - 1`, and is
re-raised on the last attempt; a loop that completes all iterations
raises `RuntimeError`. -/
def requestAux (maxRetries : Nat) (transport : Nat → HttpResult)
    (attempt remaining : Nat) (sleeps : List Nat) : RequestTrace :=
  match remaining with
  | 0 => ⟨attempt, sleeps, .exhausted⟩
  | r + 1 =>
    match transport attempt with
    | .success p => ⟨attempt + 1, sleeps, .ok p⟩
    | .rateLimited =>
        requestAux maxRetries transport (attempt + 1) r (sleeps ++ [60 * (attempt + 1)])
    | .httpError st =>
        if attempt < maxRetries - 1 then
          requestAux maxRetries transport (attempt + 1) r (sleeps ++ [5 * (attempt + 1)])
        else ⟨attempt + 1, sleeps, .raised (errText (.httpError st))⟩
    | .transportError m =>
        if attempt < maxRetries - 1 then
          requestAux maxRetries transport (attempt + 1) r (sleeps ++ [5 * (attempt + 1)])
        else ⟨attempt + 1, sleeps, .raised m⟩

/-- Embedding of `TiingoClient._request`, abstracted over the per-attempt transport
behaviour. -/
def request (maxRetries : Nat) (transport : Nat → HttpResult) : RequestTrace :=
  requestAux maxRetries transport 0 maxRetries []

-- ## The remaining tables (`schema.py`) and repository operations

/-- Embedding of `daily/{ticker}` metadata payload: the two fields `sync.py` reads via
`metadata.get("name")` / `metadata.get("exchange")`; `.get` yields `None`
for a missing key. -/
structure Metadata where
  name : Option String
  exchange : Option String
deriving DecidableEq, Repr

/-- One row of the `security` table (the columns the sync engine reads or
writes; audit timestamps and flags the engine never touches omitted). -/
structure Security where
  id : Nat
  ticker : String
  name : Option String
  exchange : Option String
  asset_type : String
deriving DecidableEq, Repr

/-- One row of the `sync_log` table (`sync_date` timestamp omitted). -/
structure SyncLogRow where
  id : Nat
  sync_type : String
  status : String
  symbols_processed : Nat
  records_inserted : Nat
  records_updated : Nat
  errors_count : Nat
  duration_seconds : Nat
  error_details : Option String
deriving DecidableEq, Repr

/-- The DuckDB state the sync engine touches; the `nextval` sequences
become next-id counters. -/
structure DB where
  securities : List Security
  next_security_id : Nat
  daily_price : List PriceRow
  sync_log : List SyncLogRow
  next_sync_id : Nat
deriving DecidableEq, Repr

def emptyDB : DB := ⟨[], 1, [], [], 1⟩

/-- Python's `ticker.upper()`: uppercase the string character by
character (for the ASCII tickers at hand this is exactly `str.upper`). -/
def pyUpper (s : String) : String := String.mk (s.data.map Char.toUpper)

/-- The `UPDATE security SET col = COALESCE(?, col)` row of
`upsert_security`: a column is overwritten only when the new value is
non-null; id and ticker are untouched; the callers always pass a non-null
`asset_type`, and never pass trade dates, so those columns keep their
stored values and are omitted here. -/
def coalesceSecurity (s : Security) (name exchange : Option String)
    (asset_type : String) : Security :=
  { s with
    name := match name with | some n => some n | none => s.name
    exchange := match exchange with | some e => some e | none => s.exchange
    asset_type := asset_type }

/-- Embedding of `repository.upsert_security(ticker, name, exchange, asset_type, ...)`:
look the uppercased ticker up; if found, update that row (by id) with the
COALESCE semantics above; otherwise `INSERT` a fresh row and return its
id. -/
def upsert_security (db : DB) (ticker : String) (name exchange : Option String)
    (asset_type : String) : Nat × DB :=
  let t := pyUpper ticker
  match db.securities.find? fun s => s.ticker == t with
  | some s =>
    let s' := coalesceSecurity s name exchange asset_type
    (s.id, { db with securities := db.securities.map fun x => if x.id == s.id then s' else x })
  | none =>
    let sid := db.next_security_id
    (sid, { db with
      securities := db.securities ++ [⟨sid, t, name, exchange, asset_type⟩],
      next_security_id := sid + 1 })

/-- Embedding of `repository.get_security_id(ticker)`:
`SELECT id FROM security WHERE ticker = ?` on the uppercased ticker. -/
def get_security_id (db : DB) (ticker : String) : Option Nat :=
  (db.securities.find? fun s => s.ticker == pyUpper ticker).map Security.id

/-- Embedding of `repository.start_sync_log(sync_type)`: insert a `status='running'`
row (integer columns at their schema defaults of 0) and return its id. -/
def start_sync_log (db : DB) (sync_type : String) : Nat × DB :=
  let sid := db.next_sync_id
  (sid, { db with
    sync_log := db.sync_log ++ [⟨sid, sync_type, "running", 0, 0, 0, 0, 0, none⟩],
    next_sync_id := sid + 1 })

/-- Embedding of `repository.complete_sync_log(...)`: `UPDATE sync_log SET ... WHERE
id = ?`, with `status = 'completed'` when the error count is zero and
`'failed'` otherwise. -/
def complete_sync_log (db : DB) (syncId symbols records updated errs : Nat)
    (duration : Nat) (details : Option String) : DB :=
  { db with sync_log := db.sync_log.map fun row =>
      if row.id == syncId then
        { row with
          symbols_processed := symbols
          records_inserted := records
          records_updated := updated
          errors_count := errs
          duration_seconds := duration
          status := if errs == 0 then "completed" else "failed"
          error_details := details }
      else row }

-- ## The sync service (`sync.py`, `SyncService`)

/-- The injected collaborators of `SyncService`: the Tiingo client's two
fetch methods (an `Except.error` is a raised exception), the watchlist
lookup, `date.today()`, and the wall-clock duration
`time.time() - start_time` measures. -/
structure SyncDeps where
  client_metadata : String → Except String Metadata
  client_prices : String → Int → Int → Except String (List Bar)
  watchlist_tickers : String → List String
  today : Int
  duration : Nat

/-- The summary dictionary `backfill`/`update` return.  An `Option` field
is `none` exactly when the Python dict lacks that key (the empty-ticker
early return of `update` builds a dict with only the first two keys). -/
structure SyncOutcome where
  symbols_processed : Nat
  records_inserted : Nat
  errors : Option Nat
  duration_seconds : Option Nat
deriving DecidableEq, Repr

/-- The loop state of one run: the database plus the local variables
`records_inserted` and `errors`, and the observable logs of progress
callbacks made and client price fetches issued. -/
structure RunAcc where
  db : DB
  records_inserted : Nat
  errors : List String
  progress : List (String × Nat × Nat)
  fetches : List (String × Int × Int)
deriving DecidableEq, Repr

/-- What a completed run yields: the returned summary, the final database,
and the two observable logs. -/
structure RunResult where
  outcome : SyncOutcome
  db : DB
  progress : List (String × Nat × Nat)
  fetches : List (String × Int × Int)
deriving DecidableEq, Repr

/-- The `try` body of one `backfill` loop iteration (sync.py lines 75-101):
the inner `try/except` tolerates a metadata failure by upserting a bare
security; then the price fetch, the non-empty merge, and the progress
callback.  Returns the state reached together with the exception the
body raises, if any — a raised exception still keeps every database write
made before it.  The progress log records the `(ticker, i+1, total)`
calls a supplied callback would receive.  `backfillUpsert` is the inner
`try/except` (metadata fetch plus upsert, lines 79-88). -/
def backfillUpsert (deps : SyncDeps) (ticker : String) (db : DB) : Nat × DB :=
  match deps.client_metadata ticker with
  | .ok m => upsert_security db ticker m.name m.exchange "Stock"
  | .error _ => upsert_security db ticker none none "Stock"

def backfillBody (deps : SyncDeps) (startD endD : Int) (total i : Nat)
    (ticker : String) (acc : RunAcc) : RunAcc × Option String :=
  let up := backfillUpsert deps ticker acc.db
  let acc1 : RunAcc :=
    { acc with
      db := up.2
      fetches := acc.fetches ++ [(ticker, startD, endD)] }
  match deps.client_prices ticker startD endD with
  | .error e => (acc1, some e)
  | .ok df =>
    if df.isEmpty then
      ({ acc1 with progress := acc1.progress ++ [(ticker, i + 1, total)] }, none)
    else
      match insert_prices up.1 df acc1.db.daily_price with
      | (.ok count, dp) =>
        ({ acc1 with
            db := { acc1.db with daily_price := dp },
            records_inserted := acc1.records_inserted + count,
            progress := acc1.progress ++ [(ticker, i + 1, total)] }, none)
      | (.error e, dp) =>
        ({ acc1 with db := { acc1.db with daily_price := dp } }, some e)

/-- One `backfill` loop iteration: the body under its
`except Exception as e: errors.append(f"{ticker}: {e}")` handler, which
catches every exception and folds it into the error list. -/
def backfillStep (deps : SyncDeps) (startD endD : Int) (total i : Nat)
    (ticker : String) (acc : RunAcc) : RunAcc :=
  match backfillBody deps startD endD total i ticker acc with
  | (acc', none) => acc'
  | (acc', some e) => { acc' with errors := acc'.errors ++ [ticker ++ ": " ++ e] }

/-- Embedding of `SyncService.backfill(tickers, start_date, end_date, progress_callback)`:
default dates (`today - 30 years`, `today`), open a sync log, loop over
the enumerated tickers, close the log with the aggregates, and return the
summary dictionary. -/
def backfill (deps : SyncDeps) (tickers : List String)
    (start_date end_date : Option Int) (db : DB) : RunResult :=
  let startD := start_date.getD (deps.today - 365 * 30)
  let endD := end_date.getD deps.today
  let opened := start_sync_log db "backfill"
  let final := tickers.enum.foldl
    (fun acc p => backfillStep deps startD endD tickers.length p.1 p.2 acc)
    ⟨opened.2, 0, [], [], []⟩
  let db1 := complete_sync_log final.db opened.1 tickers.length
    final.records_inserted 0 final.errors.length deps.duration
    (if final.errors.isEmpty then none else some (String.intercalate "\n" final.errors))
  ⟨⟨tickers.length, final.records_inserted, some final.errors.length, some deps.duration⟩,
    db1, final.progress, final.fetches⟩

/-- The fetch start date `update` computes for a known security:
`last_date + 1 day` when prices exist, else `today - 30 years`. -/
def updateStart (deps : SyncDeps) (db : DB) (sid : Nat) : Int :=
  match get_last_price_date db.daily_price sid with
  | some d => d + 1
  | none => deps.today - 365 * 30

/-- The `try` body of one `update` loop iteration (sync.py lines 166-199):
skip unknown securities (`if not security_id` — falsy also for id 0),
compute the incremental range, skip when already current
(`start_date > end_date`), else fetch, merge if non-empty, and invoke the
progress callback. -/
def updateBody (deps : SyncDeps) (total i : Nat) (ticker : String)
    (acc : RunAcc) : RunAcc × Option String :=
  match get_security_id acc.db ticker with
  | none => (acc, none)
  | some sid =>
    if sid == 0 then (acc, none)
    else
      let startD := updateStart deps acc.db sid
      let endD := deps.today
      if endD < startD then (acc, none)
      else
        let acc1 : RunAcc :=
          { acc with fetches := acc.fetches ++ [(ticker, startD, endD)] }
        match deps.client_prices ticker startD endD with
        | .error e => (acc1, some e)
        | .ok df =>
          if df.isEmpty then
            ({ acc1 with progress := acc1.progress ++ [(ticker, i + 1, total)] }, none)
          else
            match insert_prices sid df acc1.db.daily_price with
            | (.ok count, dp) =>
              ({ acc1 with
                  db := { acc1.db with daily_price := dp },
                  records_inserted := acc1.records_inserted + count,
                  progress := acc1.progress ++ [(ticker, i + 1, total)] }, none)
            | (.error e, dp) =>
              ({ acc1 with db := { acc1.db with daily_price := dp } }, some e)

/-- One `update` loop iteration under its catch-all `except` handler. -/
def updateStep (deps : SyncDeps) (total i : Nat) (ticker : String)
    (acc : RunAcc) : RunAcc :=
  match updateBody deps total i ticker acc with
  | (acc', none) => acc'
  | (acc', some e) => { acc' with errors := acc'.errors ++ [ticker ++ ": " ++ e] }

/-- Embedding of `SyncService.update` after ticker resolution: the empty list returns
the two-key dictionary `{"symbols_processed": 0, "records_inserted": 0}`
at once, before any sync log is opened; otherwise run the incremental
loop exactly like `backfill`. -/
def updateResolved (deps : SyncDeps) (tickers : List String) (db : DB) : RunResult :=
  if tickers.isEmpty then ⟨⟨0, 0, none, none⟩, db, [], []⟩
  else
    let opened := start_sync_log db "incremental"
    let final := tickers.enum.foldl
      (fun acc p => updateStep deps tickers.length p.1 p.2 acc)
      ⟨opened.2, 0, [], [], []⟩
    let db1 := complete_sync_log final.db opened.1 tickers.length
      final.records_inserted 0 final.errors.length deps.duration
      (if final.errors.isEmpty then none else some (String.intercalate "\n" final.errors))
    ⟨⟨tickers.length, final.records_inserted, some final.errors.length, some deps.duration⟩,
      db1, final.progress, final.fetches⟩

/-- Ticker resolution of `update`: an explicit list wins; otherwise a
truthy watchlist name resolves through `get_watchlist_tickers`; with
neither, `raise ValueError(...)`. -/
def resolveTickers (deps : SyncDeps) (tickers : Option (List String))
    (watchlist : Option String) : Except String (List String) :=
  match tickers with
  | some ts => .ok ts
  | none =>
    match watchlist with
    | some w => .ok (deps.watchlist_tickers w)
    | none => .error "Must provide either tickers or watchlist"

/-- Embedding of `SyncService.update(tickers, watchlist, progress_callback)`. -/
def update (deps : SyncDeps) (tickers : Option (List String))
    (watchlist : Option String) (db : DB) : Except String RunResult :=
  match resolveTickers deps tickers watchlist with
  | .error e => .error e
  | .ok ts => .ok (updateResolved deps ts db)

/-- Whether one `update` iteration skips its ticker via a `continue`:
the security is unknown (or falsy id 0), or the incremental range is
empty (`start_date > end_date`). -/
def updateSkips (deps : SyncDeps) (db : DB) (ticker : String) : Bool :=
  match get_security_id db ticker with
  | none => true
  | some sid => sid == 0 || decide (deps.today < updateStart deps db sid)

/-- Well-formedness the schema guarantees for the `security` table: ids
are unique (primary key fed by a sequence), tickers are unique (`UNIQUE`
constraint), and every id is below the sequence counter. -/
def DBWF (db : DB) : Prop :=
  (db.securities.map Security.id).Nodup ∧
  (db.securities.map Security.ticker).Nodup ∧
  ∀ s ∈ db.securities, s.id < db.next_security_id

instance (db : DB) : Decidable (DBWF db) := by
  unfold DBWF; infer_instance

-- ## Concrete fixtures used by witnesses and counterexamples

/-- Collaborators that never return data: metadata fails (the tolerated
path), price fetches return empty frames, the watchlist is empty;
today is day 100, the measured duration 7. -/
def depsW : SyncDeps :=
  ⟨fun _ => .error "no metadata", fun _ _ _ => .ok [], fun _ => [], 100, 7⟩

/-- Collaborators whose price fetch always raises. -/
def failDeps : SyncDeps :=
  ⟨fun _ => .error "no metadata", fun _ _ _ => .error "boom", fun _ => [], 100, 7⟩

/-- Collaborators for the batch-isolation scenario: `BAD`'s fetch always
raises, every other ticker yields one bar. -/
def isoDeps : SyncDeps :=
  ⟨fun _ => .error "no metadata",
    fun t _ _ => if t == "BAD" then .error "boom" else .ok [mkBar 1 10],
    fun _ => [], 100, 7⟩

/-- Collaborators where the two case variants of one ticker fetch
different bars for the same date, and `BADTICKER` always raises. -/
def collideDeps : SyncDeps :=
  ⟨fun _ => .error "no metadata",
    fun t _ _ =>
      if t == "aapl" then .ok [mkBar 1 10]
      else if t == "AAPL" then .ok [mkBar 1 20]
      else .error "boom",
    fun _ => [], 100, 7⟩

/-- A transport whose every attempt yields an HTTP 401 response. -/
def transport401 : Nat → HttpResult := fun _ => .httpError 401

/-- A store state holding security `AAPL` (id 1) whose last price date is
day 100 — the same day as `depsW.today`. -/
def dbW : DB :=
  ⟨[⟨1, "AAPL", none, none, "Stock"⟩], 2, [⟨1, mkBar 100 5⟩], [], 1⟩

def accW : RunAcc := ⟨dbW, 0, [], [], []⟩

-- ## Helper lemmas about `insert_prices`

theorem insertOk_of_nodup_dates (sid : Nat) (df : List Bar) (store : List PriceRow)
    (h : (df.map Bar.price_date).Nodup) :
    insertOk (store.filter fun r => !(matchesDelete sid (df.map Bar.price_date) r))
      (df.map fun b => PriceRow.mk sid b) := by
  constructor
  · -- the fresh rows all carry `sid`, so their keys are the supplied dates
    have hmaps : ((df.map fun b => PriceRow.mk sid b).map rowKey)
        = (df.map Bar.price_date).map fun d => ((sid, d) : Nat × Int) := by
      simp [rowKey, Function.comp]
    rw [hmaps]
    exact h.map fun a b hab => congrArg Prod.snd hab
  · intro r hr
    obtain ⟨b, hb, rfl⟩ := List.mem_map.mp hr
    intro hmem
    simp only [List.mem_map, List.mem_filter] at hmem
    obtain ⟨r', ⟨hr's, hr'del⟩, hkey⟩ := hmem
    have h1 : r'.security_id = sid := congrArg Prod.fst hkey
    have h2 : r'.bar.price_date = Bar.price_date b := congrArg Prod.snd hkey
    have : matchesDelete sid (df.map Bar.price_date) r' = true := by
      simp only [matchesDelete, decide_eq_true_eq]
      exact ⟨h1, h2 ▸ List.mem_map_of_mem Bar.price_date hb⟩
    simp [this] at hr'del

theorem newRows_key_not_mem_deleted (sid : Nat) (df : List Bar) (store : List PriceRow) :
    ∀ r ∈ df.map fun b => PriceRow.mk sid b,
      rowKey r ∉ (store.filter fun r => !(matchesDelete sid (df.map Bar.price_date) r)).map rowKey := by
  intro r hr
  obtain ⟨b, hb, rfl⟩ := List.mem_map.mp hr
  intro hmem
  simp only [List.mem_map, List.mem_filter] at hmem
  obtain ⟨r', ⟨hr's, hr'del⟩, hkey⟩ := hmem
  have h1 : r'.security_id = sid := congrArg Prod.fst hkey
  have h2 : r'.bar.price_date = Bar.price_date b := congrArg Prod.snd hkey
  have : matchesDelete sid (df.map Bar.price_date) r' = true := by
    simp only [matchesDelete, decide_eq_true_eq]
    exact ⟨h1, h2 ▸ List.mem_map_of_mem Bar.price_date hb⟩
  simp [this] at hr'del

/-- On a non-empty frame, `insertOk` against the post-delete table reduces
to key-distinctness of the fresh rows: the delete has already cleared
every colliding stored row. -/
theorem insertOk_deleted_iff (sid : Nat) (df : List Bar) (store : List PriceRow) :
    insertOk (store.filter fun r => !(matchesDelete sid (df.map Bar.price_date) r))
        (df.map fun b => PriceRow.mk sid b)
      ↔ ((df.map fun b => PriceRow.mk sid b).map rowKey).Nodup := by
  constructor
  · exact fun h => h.1
  · exact fun h => ⟨h, newRows_key_not_mem_deleted sid df store⟩

/-- Normal form of the table returned by `insert_prices` on a non-empty frame. -/
theorem insert_prices_snd (sid : Nat) (df : List Bar) (store : List PriceRow)
    (h : ¬ df.isEmpty) :
    (insert_prices sid df store).2 =
      if ((df.map fun b => PriceRow.mk sid b).map rowKey).Nodup
      then (store.filter fun r => !(matchesDelete sid (df.map Bar.price_date) r))
            ++ df.map fun b => PriceRow.mk sid b
      else store.filter fun r => !(matchesDelete sid (df.map Bar.price_date) r) := by
  simp only [insert_prices, h, if_false, Bool.false_eq_true]
  by_cases hok : ((df.map fun b => PriceRow.mk sid b).map rowKey).Nodup
  · rw [if_pos ((insertOk_deleted_iff sid df store).2 hok), if_pos hok]
  · rw [if_neg (fun hc => hok ((insertOk_deleted_iff sid df store).1 hc)), if_neg hok]

/-- Deleting twice deletes once: the post-delete table is a fixed point of
the delete predicate. -/
theorem filter_delete_idem (sid : Nat) (dates : List Int) (s : List PriceRow) :
    ((s.filter fun r => !(matchesDelete sid dates r)).filter
        fun r => !(matchesDelete sid dates r))
      = s.filter fun r => !(matchesDelete sid dates r) := by
  apply List.filter_eq_self.mpr
  intro a ha
  exact (List.mem_filter.mp ha).2

/-- Every freshly inserted row matches the delete predicate of its own call,
so a repeated call's delete removes exactly the rows the first call added. -/
theorem filter_delete_newRows (sid : Nat) (df : List Bar) :
    ((df.map fun b => PriceRow.mk sid b).filter
        fun r => !(matchesDelete sid (df.map Bar.price_date) r)) = [] := by
  apply List.filter_eq_nil_iff.mpr
  intro r hr
  simp only [List.mem_map] at hr
  obtain ⟨b, hb, rfl⟩ := hr
  simp [matchesDelete]
  exact ⟨b, hb, rfl⟩

/-- C2 Merge idempotence: for every security id and every bar
sequence, running `insert_prices` twice in succession with the same input
leaves the `daily_price` table exactly as it was after the first run
(same rows, same values). -/
theorem insert_prices_idempotent (sid : Nat) (df : List Bar) (store : List PriceRow) :
    (insert_prices sid df (insert_prices sid df store).2).2
      = (insert_prices sid df store).2 := by
  by_cases hemp : df.isEmpty
  · simp [insert_prices, hemp]
  · rw [insert_prices_snd sid df store hemp]
    by_cases hok : ((df.map fun b => PriceRow.mk sid b).map rowKey).Nodup
    · rw [if_pos hok, insert_prices_snd sid df _ hemp, if_pos hok,
        List.filter_append, filter_delete_idem, filter_delete_newRows,
        List.append_nil]
    · rw [if_neg hok, insert_prices_snd sid df _ hemp, if_neg hok,
        filter_delete_idem]

/-- C7 counterexample covered-span replacement fails on the code: a
stored bar for security 1 at date 2 lies strictly inside the date span
`[1, 3]` covered by the supplied bars and is not among them, yet it
survives the merge, because `insert_prices` deletes only rows whose date
occurs among the supplied bars' dates, not the whole span. -/
theorem covered_span_replacement_cex :
    (∀ b ∈ [mkBar 1 10, mkBar 3 30], mkBar 2 99 ≠ b) ∧
    ([mkBar 1 10, mkBar 3 30].map Bar.price_date).min? = some 1 ∧
    ([mkBar 1 10, mkBar 3 30].map Bar.price_date).max? = some 3 ∧
    (1 : Int) ≤ 2 ∧ (2 : Int) ≤ 3 ∧
    PriceRow.mk 1 (mkBar 2 99)
      ∈ (insert_prices 1 [mkBar 1 10, mkBar 3 30] [PriceRow.mk 1 (mkBar 2 99)]).2 := by
  decide

/-- C7 (amended) Supplied-date replacement: after a merge with
key-distinct bars, a row is stored exactly when it is a pre-existing row
for a date not among the supplied bars' dates (for this security), or one
of the supplied bars; pre-existing bars of this security survive at every
date not occurring among the supplied dates, even inside the covered span. -/
theorem insert_prices_replaces_supplied_dates (sid : Nat) (df : List Bar)
    (store : List PriceRow) (r : PriceRow)
    (h : (df.map Bar.price_date).Nodup) :
    r ∈ (insert_prices sid df store).2 ↔
      (r ∈ store ∧ ¬(r.security_id = sid ∧ r.bar.price_date ∈ df.map Bar.price_date))
      ∨ (r.security_id = sid ∧ r.bar ∈ df) := by
  by_cases hemp : df.isEmpty
  · rw [List.isEmpty_iff.mp hemp]
    simp [insert_prices]
  · have hok : ((df.map fun b => PriceRow.mk sid b).map rowKey).Nodup :=
      (insertOk_of_nodup_dates sid df store h).1
    rw [insert_prices_snd sid df store hemp, if_pos hok]
    rw [List.mem_append, List.mem_filter]
    simp only [matchesDelete, Bool.not_eq_true', decide_eq_false_iff_not]
    constructor
    · rintro (⟨hs, hdel⟩ | hnew)
      · exact Or.inl ⟨hs, hdel⟩
      · obtain ⟨b, hb, rfl⟩ := List.mem_map.mp hnew
        exact Or.inr ⟨rfl, hb⟩
    · rintro (⟨hs, hnotdel⟩ | ⟨h1, h2⟩)
      · exact Or.inl ⟨hs, hnotdel⟩
      · refine Or.inr (List.mem_map.mpr ⟨r.bar, h2, ?_⟩)
        cases r with
        | mk s b => cases h1; rfl

/-- C7 witness -/
theorem insert_prices_replaces_supplied_dates_witness :
    ([mkBar 1 10, mkBar 3 30].map Bar.price_date).Nodup ∧
    (PriceRow.mk 1 (mkBar 2 99)
        ∈ (insert_prices 1 [mkBar 1 10, mkBar 3 30] [PriceRow.mk 1 (mkBar 2 99)]).2 ↔
      (PriceRow.mk 1 (mkBar 2 99) ∈ [PriceRow.mk 1 (mkBar 2 99)] ∧
        ¬((PriceRow.mk 1 (mkBar 2 99)).security_id = 1 ∧
          (PriceRow.mk 1 (mkBar 2 99)).bar.price_date
            ∈ [mkBar 1 10, mkBar 3 30].map Bar.price_date))
      ∨ ((PriceRow.mk 1 (mkBar 2 99)).security_id = 1 ∧
          (PriceRow.mk 1 (mkBar 2 99)).bar ∈ [mkBar 1 10, mkBar 3 30])) :=
  ⟨by decide,
    insert_prices_replaces_supplied_dates 1 [mkBar 1 10, mkBar 3 30]
      [PriceRow.mk 1 (mkBar 2 99)] (PriceRow.mk 1 (mkBar 2 99)) (by decide)⟩

theorem nodup_keys_of_reachable {s : List PriceRow} (h : ReachableStore s) :
    (s.map rowKey).Nodup := by
  induction h with
  | init => simp
  | step sid df hs ih =>
    rename_i s'
    by_cases hemp : df.isEmpty
    · simpa [insert_prices, hemp] using ih
    · rw [insert_prices_snd sid df s' hemp]
      have hsub : ((s'.filter fun r => !(matchesDelete sid (df.map Bar.price_date) r)).map rowKey).Nodup := by
        refine List.Nodup.sublist ?_ ih
        exact List.Sublist.map rowKey (List.filter_sublist s')
      by_cases hok : ((df.map fun b => PriceRow.mk sid b).map rowKey).Nodup
      · rw [if_pos hok, List.map_append, List.nodup_append]
        refine ⟨hsub, hok, ?_⟩
        intro k hk hk'
        obtain ⟨r, hr, rfl⟩ := List.mem_map.mp hk'
        exact newRows_key_not_mem_deleted sid df s' r hr hk
      · rw [if_neg hok]
        exact hsub

theorem countP_key_le_one {l : List PriceRow}
    (hn : (l.map rowKey).Nodup) (k : Nat × Int) :
    l.countP (fun r => decide (rowKey r = k)) ≤ 1 := by
  induction l with
  | nil => simp
  | cons a t ih =>
    rw [List.map_cons, List.nodup_cons] at hn
    by_cases ha : rowKey a = k
    · have ht0 : t.countP (fun r => decide (rowKey r = k)) = 0 := by
        apply List.countP_eq_zero.mpr
        intro r hr
        simp only [decide_eq_true_eq]
        intro hkr
        apply hn.1
        have hm : rowKey r ∈ t.map rowKey := List.mem_map_of_mem rowKey hr
        rw [hkr, ← ha] at hm
        exact hm
      rw [List.countP_cons_of_pos _ _ (by simpa using ha), ht0]
    · rw [List.countP_cons_of_neg _ _ (by simpa using ha)]
      exact ih hn.2

/-- C8 No duplicate bars: in every store state reachable by any
sequence of merges, each `(security_id, price_date)` key has at most one
stored row. -/
theorem no_duplicate_bars {s : List PriceRow} (h : ReachableStore s)
    (sid : Nat) (d : Int) :
    s.countP (fun r => decide (rowKey r = (sid, d))) ≤ 1 :=
  countP_key_le_one (nodup_keys_of_reachable h) (sid, d)

/-- C8 witness -/
theorem no_duplicate_bars_witness :
    ReachableStore (insert_prices 1 [mkBar 1 5] []).2 ∧
    ((insert_prices 1 [mkBar 1 5] []).2.countP
        (fun r => decide (rowKey r = ((1 : Nat), (1 : Int))))) ≤ 1 :=
  ⟨ReachableStore.step 1 [mkBar 1 5] ReachableStore.init,
    no_duplicate_bars (ReachableStore.step 1 [mkBar 1 5] ReachableStore.init) 1 1⟩

-- ## Lemmas about the retry loop of `_request`

theorem requestAux_allErr (mr : Nat) (t : Nat → HttpResult)
    (ht : ∀ i, isRetryableErr (t i) = true) :
    ∀ (r a : Nat) (sleeps : List Nat), 1 ≤ r → a + r = mr →
      requestAux mr t a r sleeps =
        ⟨mr, sleeps ++ (List.range' (a + 1) (r - 1)).map (fun k => 5 * k),
          .raised (errText (t (mr - 1)))⟩ := by
  intro r
  induction r with
  | zero => intro a sleeps h1 _; exact absurd h1 (by omega)
  | succ r ih =>
    intro a sleeps h1 hsum
    rcases hta : t a with p | _ | st | m
    · have := ht a; rw [hta] at this; simp [isRetryableErr] at this
    · have := ht a; rw [hta] at this; simp [isRetryableErr] at this
    · simp only [requestAux, hta]
      by_cases hlt : a < mr - 1
      · have hr1 : 1 ≤ r := by omega
        rw [if_pos hlt, ih (a + 1) (sleeps ++ [5 * (a + 1)]) hr1 (by omega)]
        have hr : r - 1 + 1 = r := by omega
        have hrr : r + 1 - 1 = r := by omega
        rw [hrr, ← hr, List.range'_succ]
        simp [List.append_assoc]
      · have hr0 : r = 0 := by omega
        have ha : a + 1 = mr := by omega
        have ha' : mr - 1 = a := by omega
        subst hr0
        rw [if_neg hlt]
        simp [ha, ha', hta, errText]
    · simp only [requestAux, hta]
      by_cases hlt : a < mr - 1
      · have hr1 : 1 ≤ r := by omega
        rw [if_pos hlt, ih (a + 1) (sleeps ++ [5 * (a + 1)]) hr1 (by omega)]
        have hr : r - 1 + 1 = r := by omega
        have hrr : r + 1 - 1 = r := by omega
        rw [hrr, ← hr, List.range'_succ]
        simp [List.append_assoc]
      · have hr0 : r = 0 := by omega
        have ha : a + 1 = mr := by omega
        have ha' : mr - 1 = a := by omega
        subst hr0
        rw [if_neg hlt]
        simp [ha, ha', hta, errText]

theorem request_allErr (mr : Nat) (t : Nat → HttpResult) (hmr : 1 ≤ mr)
    (ht : ∀ i, isRetryableErr (t i) = true) :
    request mr t =
      ⟨mr, (List.range' 1 (mr - 1)).map (fun k => 5 * k),
        .raised (errText (t (mr - 1)))⟩ := by
  have h := requestAux_allErr mr t ht mr 0 [] hmr (by omega)
  simpa [request] using h

theorem requestAux_all429 (mr : Nat) (t : Nat → HttpResult)
    (ht : ∀ i, t i = .rateLimited) :
    ∀ (r a : Nat) (sleeps : List Nat), a + r = mr →
      requestAux mr t a r sleeps =
        ⟨mr, sleeps ++ (List.range' (a + 1) r).map (fun k => 60 * k), .exhausted⟩ := by
  intro r
  induction r with
  | zero =>
    intro a sleeps hsum
    simp only [requestAux]
    simp [Nat.add_zero] at hsum
    simp [hsum]
  | succ r ih =>
    intro a sleeps hsum
    simp only [requestAux, ht a]
    rw [ih (a + 1) (sleeps ++ [60 * (a + 1)]) (by omega), List.range'_succ]
    simp [List.append_assoc]

theorem request_all429 (mr : Nat) (t : Nat → HttpResult)
    (ht : ∀ i, t i = .rateLimited) :
    request mr t = ⟨mr, (List.range' 1 mr).map (fun k => 60 * k), .exhausted⟩ := by
  have h := requestAux_all429 mr t ht mr 0 [] (by omega)
  simpa [request] using h

theorem backfillBody_errors_eq (deps : SyncDeps) (sD eD : Int) (total i : Nat)
    (tk : String) (acc : RunAcc) :
    (backfillBody deps sD eD total i tk acc).1.errors = acc.errors := by
  unfold backfillBody
  cases deps.client_prices tk sD eD with
  | error e => rfl
  | ok df =>
    by_cases hemp : df.isEmpty
    · simp [hemp]
    · simp only [hemp, Bool.false_eq_true, if_false]
      rcases hip : insert_prices (backfillUpsert deps tk acc.db).1 df
          (backfillUpsert deps tk acc.db).2.daily_price with ⟨res, dp⟩
      cases res <;> simp [hip]

theorem backfillBody_snd_fetch_err (deps : SyncDeps) (sD eD : Int) (total i : Nat)
    (tk : String) (acc : RunAcc) (e2 : String)
    (h : deps.client_prices tk sD eD = .error e2) :
    (backfillBody deps sD eD total i tk acc).2 = some e2 := by
  unfold backfillBody
  rw [h]

theorem backfillStep_errors_fetch_err (deps : SyncDeps) (sD eD : Int) (total i : Nat)
    (tk : String) (acc : RunAcc) (e2 : String)
    (h : deps.client_prices tk sD eD = .error e2) :
    (backfillStep deps sD eD total i tk acc).errors
      = acc.errors ++ [tk ++ ": " ++ e2] := by
  unfold backfillStep
  rcases hb : backfillBody deps sD eD total i tk acc with ⟨acc', exc⟩
  have h2 : exc = some e2 := by
    have := backfillBody_snd_fetch_err deps sD eD total i tk acc e2 h
    rw [hb] at this; exact this
  have h3 : acc'.errors = acc.errors := by
    have := backfillBody_errors_eq deps sD eD total i tk acc
    rw [hb] at this; exact this
  subst h2
  simp [h3]

/-- C6 Retry exhaustion: when every attempt fails with a transport
error, `_request` makes exactly `max_retries` attempts, sleeping
`5 * (attempt + 1)` seconds between consecutive attempts, and then
re-raises the last error (the `RemoteRequestFailed` condition); when every
attempt is rate-limited (429), it likewise makes exactly `max_retries`
attempts, sleeping `60 * (attempt + 1)` seconds after each 429, and ends
in the `RuntimeError` raise; and a price-fetch error for a ticker is
folded into the batch's error list by the loop's handler instead of
aborting the batch. -/
theorem retry_exhaustion (mr : Nat) (transport transportRL : Nat → HttpResult)
    (errs : Nat → String) (hmr : 1 ≤ mr)
    (ht : ∀ i, transport i = .transportError (errs i))
    (h429 : ∀ i, transportRL i = .rateLimited) :
    ((request mr transport).attempts = mr ∧
      (request mr transport).sleeps = (List.range' 1 (mr - 1)).map (fun k => 5 * k) ∧
      (request mr transport).outcome = .raised (errs (mr - 1))) ∧
    ((request mr transportRL).attempts = mr ∧
      (request mr transportRL).sleeps = (List.range' 1 mr).map (fun k => 60 * k) ∧
      (request mr transportRL).outcome = .exhausted) ∧
    (∀ (deps : SyncDeps) (sD eD : Int) (total i : Nat) (tk : String)
        (acc : RunAcc) (e2 : String),
      deps.client_prices tk sD eD = .error e2 →
      (backfillStep deps sD eD total i tk acc).errors
        = acc.errors ++ [tk ++ ": " ++ e2]) := by
  refine ⟨?_, ?_, ?_⟩
  · have h := request_allErr mr transport hmr (fun i => by rw [ht i]; rfl)
    rw [h]
    refine ⟨rfl, rfl, ?_⟩
    show RequestOutcome.raised (errText (transport (mr - 1))) = _
    rw [ht (mr - 1)]
    rfl
  · have h := request_all429 mr transportRL h429
    rw [h]
    exact ⟨rfl, rfl, rfl⟩
  · intro deps sD eD total i tk acc e2 hf
    exact backfillStep_errors_fetch_err deps sD eD total i tk acc e2 hf

/-- C6 witness -/
theorem retry_exhaustion_witness :
    (1 ≤ 3) ∧
    (∀ i : Nat, (fun _ : Nat => HttpResult.transportError "boom") i
      = .transportError "boom") ∧
    (request 3 (fun _ => HttpResult.transportError "boom")).attempts = 3 ∧
    (request 3 (fun _ => HttpResult.transportError "boom")).sleeps = [5, 10] ∧
    (request 3 (fun _ => HttpResult.transportError "boom")).outcome = .raised "boom" ∧
    (request 3 (fun _ => HttpResult.rateLimited)).sleeps = [60, 120, 180] ∧
    (failDeps.client_prices "A" 0 5 = .error "boom" →
      (backfillStep failDeps 0 5 1 0 "A" ⟨emptyDB, 0, [], [], []⟩).errors
        = [] ++ ["A" ++ ": " ++ "boom"]) := by
  obtain ⟨⟨h1, h2, h3⟩, ⟨_, h4, _⟩, h5⟩ :=
    retry_exhaustion 3 (fun _ => HttpResult.transportError "boom")
      (fun _ => HttpResult.rateLimited) (fun _ => "boom")
      (by decide) (fun _ => rfl) (fun _ => rfl)
  exact ⟨by decide, fun _ => rfl, h1, h2.trans (by decide), h3,
    h4.trans (by decide), h5 failDeps 0 5 1 0 "A" ⟨emptyDB, 0, [], [], []⟩ "boom"⟩

/-- C5 counterexample an HTTP 401 response is retried, not fatal: a
transport answering 401 on every attempt produces 3 attempts with retry
sleeps `[5, 10]` (the claim says an authentication failure is not
retried), and a run whose single ticker's fetch always raises returns a
`SyncOutcome` with the failure folded into the tally instead of
propagating an abort. -/
theorem auth_abort_cex :
    (request 3 transport401).attempts = 3 ∧
    (request 3 transport401).sleeps = [5, 10] ∧
    (backfill failDeps ["A"] (some 0) (some 5) emptyDB).outcome.errors = some 1 ∧
    (backfill failDeps ["A"] (some 0) (some 5) emptyDB).outcome.symbols_processed = 1 := by
  decide

/-- C5 (amended) Propagation policy as implemented: a 401 response
raises an `HTTPError` that the retry loop treats like any other request
failure (retried up to `max_retries` attempts, then re-raised); the batch
loop's catch-all handler folds any per-ticker fetch failure into the
error tally, so no exception raised while processing a ticker escapes the
loop; only the pre-loop `ValueError` of `update` called with neither
tickers nor watchlist propagates to the caller. -/
theorem auth_failure_policy (mr : Nat) (st : Nat) (t401 : Nat → HttpResult)
    (hmr : 1 ≤ mr) (h401 : ∀ i, t401 i = .httpError st) :
    ((request mr t401).attempts = mr ∧
      (request mr t401).sleeps = (List.range' 1 (mr - 1)).map (fun k => 5 * k) ∧
      (request mr t401).outcome = .raised (errText (.httpError st))) ∧
    (∀ (deps : SyncDeps) (sD eD : Int) (total i : Nat) (tk : String)
        (acc : RunAcc) (e2 : String),
      deps.client_prices tk sD eD = .error e2 →
      (backfillStep deps sD eD total i tk acc).errors
        = acc.errors ++ [tk ++ ": " ++ e2]) ∧
    (∀ (deps : SyncDeps) (db : DB),
      update deps none none db = .error "Must provide either tickers or watchlist") := by
  refine ⟨?_, ?_, ?_⟩
  · have h := request_allErr mr t401 hmr (fun i => by rw [h401 i]; rfl)
    rw [h]
    refine ⟨rfl, rfl, ?_⟩
    show RequestOutcome.raised (errText (t401 (mr - 1))) = _
    rw [h401 (mr - 1)]
  · intro deps sD eD total i tk acc e2 hf
    exact backfillStep_errors_fetch_err deps sD eD total i tk acc e2 hf
  · intro deps db
    rfl

/-- C5 witness -/
theorem auth_failure_policy_witness :
    (1 ≤ 3) ∧ (∀ i : Nat, transport401 i = .httpError 401) ∧
    (request 3 transport401).attempts = 3 ∧
    (request 3 transport401).outcome = .raised (errText (.httpError 401)) ∧
    update depsW none none emptyDB = .error "Must provide either tickers or watchlist" := by
  obtain ⟨⟨h1, _, h2⟩, _, h3⟩ :=
    auth_failure_policy 3 401 transport401 (by decide) (fun _ => rfl)
  exact ⟨by decide, fun _ => rfl, h1, h2, h3 depsW emptyDB⟩

-- ## Frame lemmas for the sync loops

theorem upsert_security_sync_log (db : DB) (tk : String) (n x : Option String)
    (a : String) : (upsert_security db tk n x a).2.sync_log = db.sync_log := by
  simp only [upsert_security]
  cases db.securities.find? fun s => s.ticker == pyUpper tk <;> rfl

theorem backfillUpsert_sync_log (deps : SyncDeps) (tk : String) (db : DB) :
    (backfillUpsert deps tk db).2.sync_log = db.sync_log := by
  unfold backfillUpsert
  cases deps.client_metadata tk with
  | ok m => exact upsert_security_sync_log db tk m.name m.exchange "Stock"
  | error e => exact upsert_security_sync_log db tk none none "Stock"

theorem backfillBody_sync_log (deps : SyncDeps) (sD eD : Int) (total i : Nat)
    (tk : String) (acc : RunAcc) :
    (backfillBody deps sD eD total i tk acc).1.db.sync_log = acc.db.sync_log := by
  unfold backfillBody
  cases deps.client_prices tk sD eD with
  | error e => exact backfillUpsert_sync_log deps tk acc.db
  | ok df =>
    by_cases hemp : df.isEmpty
    · simpa [hemp] using backfillUpsert_sync_log deps tk acc.db
    · simp only [hemp, Bool.false_eq_true, if_false]
      rcases hip : insert_prices (backfillUpsert deps tk acc.db).1 df
          (backfillUpsert deps tk acc.db).2.daily_price with ⟨res, dp⟩
      cases res <;> simpa [hip] using backfillUpsert_sync_log deps tk acc.db

theorem backfillStep_sync_log (deps : SyncDeps) (sD eD : Int) (total i : Nat)
    (tk : String) (acc : RunAcc) :
    (backfillStep deps sD eD total i tk acc).db.sync_log = acc.db.sync_log := by
  unfold backfillStep
  rcases hb : backfillBody deps sD eD total i tk acc with ⟨acc', exc⟩
  have h := backfillBody_sync_log deps sD eD total i tk acc
  rw [hb] at h
  cases exc <;> simpa using h

theorem foldl_backfill_sync_log (deps : SyncDeps) (sD eD : Int) (total : Nat) :
    ∀ (l : List (Nat × String)) (acc : RunAcc),
      (l.foldl (fun a p => backfillStep deps sD eD total p.1 p.2 a) acc).db.sync_log
        = acc.db.sync_log := by
  intro l
  induction l with
  | nil => intro acc; rfl
  | cons p t ih =>
    intro acc
    rw [List.foldl_cons, ih, backfillStep_sync_log]

theorem updateBody_sync_log (deps : SyncDeps) (total i : Nat) (tk : String)
    (acc : RunAcc) :
    (updateBody deps total i tk acc).1.db.sync_log = acc.db.sync_log := by
  unfold updateBody
  cases get_security_id acc.db tk with
  | none => rfl
  | some sid =>
    by_cases h0 : (sid == 0) = true
    · simp [h0]
    · simp only [h0, Bool.false_eq_true, if_false]
      by_cases hlt : deps.today < updateStart deps acc.db sid
      · simp [hlt]
      · simp only [hlt, if_false]
        cases deps.client_prices tk (updateStart deps acc.db sid) deps.today with
        | error e => rfl
        | ok df =>
          by_cases hemp : df.isEmpty
          · simp [hemp]
          · simp only [hemp, Bool.false_eq_true, if_false]
            rcases hip : insert_prices sid df acc.db.daily_price with ⟨res, dp⟩
            cases res <;> simp [hip]

theorem updateStep_sync_log (deps : SyncDeps) (total i : Nat) (tk : String)
    (acc : RunAcc) :
    (updateStep deps total i tk acc).db.sync_log = acc.db.sync_log := by
  unfold updateStep
  rcases hb : updateBody deps total i tk acc with ⟨acc', exc⟩
  have h := updateBody_sync_log deps total i tk acc
  rw [hb] at h
  cases exc <;> simpa using h

theorem foldl_update_sync_log (deps : SyncDeps) (total : Nat) :
    ∀ (l : List (Nat × String)) (acc : RunAcc),
      (l.foldl (fun a p => updateStep deps total p.1 p.2 a) acc).db.sync_log
        = acc.db.sync_log := by
  intro l
  induction l with
  | nil => intro acc; rfl
  | cons p t ih =>
    intro acc
    rw [List.foldl_cons, ih, updateStep_sync_log]

theorem updateResolved_symbols (deps : SyncDeps) (tickers : List String) (db : DB) :
    (updateResolved deps tickers db).outcome.symbols_processed = tickers.length := by
  unfold updateResolved
  by_cases hemp : tickers.isEmpty
  · rw [List.isEmpty_iff.mp hemp]
    simp
  · simp [hemp]

/-- C9 counterexample the empty-ticker early return of `update` is
the two-key dictionary `{"symbols_processed": 0, "records_inserted": 0}`:
the `errors` and `duration_seconds` keys are absent, while the claim says
error count and duration are present and zero. -/
theorem empty_update_cex :
    (updateResolved depsW [] emptyDB).outcome.errors = none ∧
    (updateResolved depsW [] emptyDB).outcome.duration_seconds = none ∧
    update depsW (some []) (some "default") emptyDB
      = .ok (updateResolved depsW [] emptyDB) :=
  ⟨rfl, rfl, rfl⟩

/-- C9 (amended) Empty-list update: whenever the resolved ticker
list is empty, `update` returns immediately with `symbols_processed = 0`
and `records_inserted = 0` and without the `errors` and
`duration_seconds` keys, leaves the database untouched (in particular no
SyncRun row is opened), makes no fetch, and fires no progress
callback. -/
theorem empty_update_zero_outcome (deps : SyncDeps)
    (tickers : Option (List String)) (w : Option String) (db : DB)
    (ts : List String)
    (hres : resolveTickers deps tickers w = .ok ts) (hemp : ts.isEmpty) :
    update deps tickers w db = .ok ⟨⟨0, 0, none, none⟩, db, [], []⟩ := by
  unfold update
  rw [hres]
  show Except.ok (updateResolved deps ts db) = _
  unfold updateResolved
  rw [if_pos hemp]

/-- C9 witness -/
theorem empty_update_zero_outcome_witness :
    resolveTickers depsW none (some "default") = .ok [] ∧
    ([] : List String).isEmpty ∧
    update depsW none (some "default") emptyDB
      = .ok ⟨⟨0, 0, none, none⟩, emptyDB, [], []⟩ :=
  ⟨rfl, rfl, empty_update_zero_outcome depsW none (some "default") emptyDB [] rfl rfl⟩

theorem complete_sync_log_records (db : DB)
    (syncId symbols records updated errs duration : Nat) (details : Option String)
    (row0 : SyncLogRow) (hmem : row0 ∈ db.sync_log) (hid : row0.id = syncId) :
    ∃ row ∈ (complete_sync_log db syncId symbols records updated errs duration
        details).sync_log,
      row.symbols_processed = symbols := by
  unfold complete_sync_log
  refine ⟨_, List.mem_map_of_mem _ hmem, ?_⟩
  simp [hid]

/-- C10 Processed count equals input size: in both `backfill` and
`update`, the returned `symbols_processed` equals the length of the
ticker list, regardless of failures and skips, and the completed sync-log
row records that same length (for `update`, whenever the list is
non-empty and a log row is written at all). -/
theorem symbols_processed_eq_total :
    (∀ (deps : SyncDeps) (tickers : List String) (s e : Option Int) (db : DB),
      (backfill deps tickers s e db).outcome.symbols_processed = tickers.length ∧
      ∃ row ∈ (backfill deps tickers s e db).db.sync_log,
        row.symbols_processed = tickers.length) ∧
    (∀ (deps : SyncDeps) (tickers : List String) (db : DB),
      (updateResolved deps tickers db).outcome.symbols_processed = tickers.length ∧
      (¬ tickers.isEmpty = true →
        ∃ row ∈ (updateResolved deps tickers db).db.sync_log,
          row.symbols_processed = tickers.length)) ∧
    (∀ (deps : SyncDeps) (tickers : List String) (w : Option String) (db : DB)
        (r : RunResult),
      update deps (some tickers) w db = .ok r →
      r.outcome.symbols_processed = tickers.length) := by
  refine ⟨?_, ?_, ?_⟩
  · intro deps tickers s e db
    constructor
    · rfl
    · show ∃ row ∈ (complete_sync_log _ _ _ _ _ _ _ _).sync_log, _
      apply complete_sync_log_records _ _ _ _ _ _ _ _
        (⟨db.next_sync_id, "backfill", "running", 0, 0, 0, 0, 0, none⟩ : SyncLogRow)
      · rw [foldl_backfill_sync_log]
        show _ ∈ (start_sync_log db "backfill").2.sync_log
        unfold start_sync_log
        simp
      · rfl
  · intro deps tickers db
    refine ⟨updateResolved_symbols deps tickers db, ?_⟩
    intro hne
    unfold updateResolved
    rw [if_neg hne]
    show ∃ row ∈ (complete_sync_log _ _ _ _ _ _ _ _).sync_log, _
    apply complete_sync_log_records _ _ _ _ _ _ _ _
      (⟨db.next_sync_id, "incremental", "running", 0, 0, 0, 0, 0, none⟩ : SyncLogRow)
    · rw [foldl_update_sync_log]
      show _ ∈ (start_sync_log db "incremental").2.sync_log
      unfold start_sync_log
      simp
    · rfl
  · intro deps tickers w db r h
    have h' : Except.ok (updateResolved deps tickers db)
        = (Except.ok r : Except String RunResult) := h
    injection h' with h''
    rw [← h'']
    exact updateResolved_symbols deps tickers db

/-- C10 witness -/
theorem symbols_processed_eq_total_witness :
    update depsW (some ["A"]) (some "default") emptyDB
      = .ok (updateResolved depsW ["A"] emptyDB) ∧
    (updateResolved depsW ["A"] emptyDB).outcome.symbols_processed = 1 ∧
    ¬ (["A"] : List String).isEmpty = true ∧
    (backfill depsW ["A"] (some 0) (some 5) emptyDB).outcome.symbols_processed = 1 := by
  obtain ⟨h1, h2, h3⟩ := symbols_processed_eq_total
  exact ⟨rfl, h3 depsW ["A"] (some "default") emptyDB _ rfl, by decide,
    (h1 depsW ["A"] (some 0) (some 5) emptyDB).1⟩

/-- C4 counterexample the progress callback is not unconditional: a
backfill whose single ticker's fetch raises fires no callback at all (the
call sits inside the `try`, after the merge), and an update whose single
ticker is already current (`last date = today`) skips with `continue`
before the callback line, so it fires none either. -/
theorem progress_callback_cex :
    failDeps.client_prices "A" 0 5 = .error "boom" ∧
    (backfill failDeps ["A"] (some 0) (some 5) emptyDB).progress = [] ∧
    get_security_id dbW "AAPL" = some 1 ∧
    get_last_price_date dbW.daily_price 1 = some depsW.today ∧
    (updateResolved depsW ["AAPL"] dbW).progress = [] :=
  ⟨rfl, by decide, by decide, by decide, by decide⟩

/-- C4 (amended) Progress callback on success only: in a `backfill`
iteration the callback fires (once, with `(symbol, index+1, total)`)
exactly when the iteration's body raises no exception; in an `update`
iteration it fires exactly when the body raises no exception and the
ticker is not skipped (unknown security or already-current range). -/
theorem progress_callback_on_success_only (deps : SyncDeps) (startD endD : Int)
    (total i : Nat) (tk : String) (acc : RunAcc) :
    ((backfillBody deps startD endD total i tk acc).1.progress
      = if (backfillBody deps startD endD total i tk acc).2 = none
        then acc.progress ++ [(tk, i + 1, total)] else acc.progress) ∧
    ((updateBody deps total i tk acc).1.progress
      = if ((updateBody deps total i tk acc).2 = none
            ∧ updateSkips deps acc.db tk = false)
        then acc.progress ++ [(tk, i + 1, total)] else acc.progress) := by
  constructor
  · unfold backfillBody
    cases deps.client_prices tk startD endD with
    | error e => simp
    | ok df =>
      by_cases hemp : df.isEmpty
      · simp [hemp]
      · simp only [hemp, Bool.false_eq_true, if_false]
        rcases hip : insert_prices (backfillUpsert deps tk acc.db).1 df
            (backfillUpsert deps tk acc.db).2.daily_price with ⟨res, dp⟩
        cases res <;> simp [hip]
  · unfold updateBody updateSkips
    cases get_security_id acc.db tk with
    | none => simp
    | some sid =>
      by_cases h0 : (sid == 0) = true
      · simp [h0]
      · simp only [h0, Bool.false_eq_true, if_false]
        by_cases hlt : deps.today < updateStart deps acc.db sid
        · simp [hlt]
        · simp only [hlt, if_false, decide_eq_true_eq]
          cases deps.client_prices tk (updateStart deps acc.db sid) deps.today with
          | error e => simp [hlt]
          | ok df =>
            by_cases hemp : df.isEmpty
            · simp [hemp, hlt]
            · simp only [hemp, Bool.false_eq_true, if_false]
              rcases hip : insert_prices sid df acc.db.daily_price with ⟨res, dp⟩
              cases res <;> simp [hip, hlt]

/-- C3 Gap-correct incremental update: for a ticker whose security
is known with last price date `D`, the update iteration fetches exactly
the range `[D+1, today]` whenever `D+1 ≤ today`, and when `D = today` it
does nothing at all for that ticker: no fetch is issued, no records are
inserted, the state is returned unchanged. -/
theorem update_gap_correct (deps : SyncDeps) (total i : Nat) (tk : String)
    (acc : RunAcc) (sid : Nat) (D : Int)
    (hsid : get_security_id acc.db tk = some sid) (hnz : sid ≠ 0)
    (hD : get_last_price_date acc.db.daily_price sid = some D) :
    (D + 1 ≤ deps.today →
      (updateBody deps total i tk acc).1.fetches
        = acc.fetches ++ [(tk, D + 1, deps.today)]) ∧
    (D = deps.today →
      updateBody deps total i tk acc = (acc, none)) := by
  have hstart : updateStart deps acc.db sid = D + 1 := by
    unfold updateStart
    rw [hD]
  have h0 : (sid == 0) = false := beq_eq_false_iff_ne.mpr hnz
  constructor
  · intro hle
    have hnlt : ¬ deps.today < D + 1 := by omega
    unfold updateBody
    rw [hsid]
    simp only [h0, Bool.false_eq_true, if_false, hstart, hnlt]
    cases deps.client_prices tk (D + 1) deps.today with
    | error e => rfl
    | ok df =>
      by_cases hemp : df.isEmpty
      · simp [hemp]
      · simp only [hemp, Bool.false_eq_true, if_false]
        rcases hip : insert_prices sid df acc.db.daily_price with ⟨res, dp⟩
        cases res <;> simp [hip]
  · intro heq
    have hlt : deps.today < D + 1 := by omega
    unfold updateBody
    rw [hsid]
    simp only [h0, Bool.false_eq_true, if_false, hstart, hlt]
    rw [if_pos trivial]

/-- C3 witness -/
theorem update_gap_correct_witness :
    get_security_id accW.db "AAPL" = some 1 ∧ (1 : Nat) ≠ 0 ∧
    get_last_price_date accW.db.daily_price 1 = some 100 ∧
    ((100 : Int) = depsW.today →
      updateBody depsW 1 0 "AAPL" accW = (accW, none)) := by
  obtain ⟨h1, h2⟩ :=
    update_gap_correct depsW 1 0 "AAPL" accW 1 100 (by decide) (by decide) (by decide)
  exact ⟨by decide, by decide, by decide, h2⟩

-- ## Lemmas about `upsert_security` and `get_security_id`

theorem find?_congr_on {α : Type _} {p q : α → Bool} :
    ∀ (l : List α), (∀ y ∈ l, p y = q y) → l.find? p = l.find? q := by
  intro l
  induction l with
  | nil => intro _; rfl
  | cons a t ih =>
    intro h
    have ha := h a (by simp)
    rw [List.find?_cons, List.find?_cons, ha]
    cases hq : q a with
    | true => rfl
    | false => exact ih fun y hy => h y (by simp [hy])

theorem find?_ticker_map_replace (l : List Security) (s s' : Security)
    (hid : s'.id = s.id) (htk : s'.ticker = s.ticker)
    (hids : (l.map Security.id).Nodup) (hs : s ∈ l) (T : String) :
    ((l.map fun x0 => if (x0.id == s.id) = true then s' else x0).find?
        fun y => y.ticker == T).map Security.id
      = (l.find? fun y => y.ticker == T).map Security.id := by
  rw [List.find?_map]
  have hcong : (l.find? ((fun y => y.ticker == T)
        ∘ fun x0 => if (x0.id == s.id) = true then s' else x0))
      = l.find? fun y => y.ticker == T := by
    apply find?_congr_on
    intro y hy
    by_cases h : (y.id == s.id) = true
    · have hys : y = s := List.inj_on_of_nodup_map hids hy hs (by simpa using h)
      subst hys
      simp [h, htk]
    · have hzz : ¬ y.id = s.id := by simpa using h
      simp [hzz]
  rw [hcong]
  cases hres : l.find? fun y => y.ticker == T with
  | none => rfl
  | some y =>
    have hy := List.mem_of_find?_eq_some hres
    by_cases h : (y.id == s.id) = true
    · have hys : y = s := List.inj_on_of_nodup_map hids hy hs (by simpa using h)
      subst hys
      simp [h, hid]
    · have hzz : ¬ y.id = s.id := by simpa using h
      simp [hzz]

theorem map_replace_wf (l : List Security) (s s' : Security) (nid : Nat)
    (hid : s'.id = s.id) (htk : s'.ticker = s.ticker) (hs : s ∈ l)
    (hids : (l.map Security.id).Nodup) (htks : (l.map Security.ticker).Nodup)
    (hbound : ∀ y ∈ l, y.id < nid) :
    ((l.map fun x0 => if (x0.id == s.id) = true then s' else x0).map Security.id).Nodup ∧
    ((l.map fun x0 => if (x0.id == s.id) = true then s' else x0).map Security.ticker).Nodup ∧
    (∀ y ∈ l.map fun x0 => if (x0.id == s.id) = true then s' else x0, y.id < nid) := by
  have hmapid : (l.map fun x0 => if (x0.id == s.id) = true then s' else x0).map Security.id
      = l.map Security.id := by
    rw [List.map_map]
    apply List.map_congr_left
    intro y hy
    by_cases h : (y.id == s.id) = true
    · have hys : y = s := List.inj_on_of_nodup_map hids hy hs (by simpa using h)
      subst hys
      simp [h, hid]
    · have hzz : ¬ y.id = s.id := by simpa using h
      simp [hzz]
  have hmaptk : (l.map fun x0 => if (x0.id == s.id) = true then s' else x0).map Security.ticker
      = l.map Security.ticker := by
    rw [List.map_map]
    apply List.map_congr_left
    intro y hy
    by_cases h : (y.id == s.id) = true
    · have hys : y = s := List.inj_on_of_nodup_map hids hy hs (by simpa using h)
      subst hys
      simp [h, htk]
    · have hzz : ¬ y.id = s.id := by simpa using h
      simp [hzz]
  refine ⟨hmapid ▸ hids, hmaptk ▸ htks, ?_⟩
  intro y hy
  obtain ⟨z, hz, rfl⟩ := List.mem_map.mp hy
  by_cases h : (z.id == s.id) = true
  · have hzs : z = s := List.inj_on_of_nodup_map hids hz hs (by simpa using h)
    subst hzs
    simp only [h, if_true]
    rw [hid]
    exact hbound z hz
  · simp only [h, Bool.false_eq_true, if_false]
    exact hbound z hz

theorem upsert_security_daily_price (db : DB) (tk : String) (n x : Option String)
    (a : String) : (upsert_security db tk n x a).2.daily_price = db.daily_price := by
  simp only [upsert_security]
  cases db.securities.find? fun s => s.ticker == pyUpper tk <;> rfl

theorem upsert_security_get (db : DB) (tk t' : String) (n x : Option String)
    (a : String) (hwf : DBWF db) :
    get_security_id (upsert_security db tk n x a).2 t'
      = if pyUpper t' = pyUpper tk
        then some (upsert_security db tk n x a).1
        else get_security_id db t' := by
  obtain ⟨hids, htks, hbound⟩ := hwf
  simp only [upsert_security, get_security_id]
  cases hf : db.securities.find? fun s => s.ticker == pyUpper tk with
  | some s =>
    have hs := List.mem_of_find?_eq_some hf
    simp only
    rw [find?_ticker_map_replace db.securities s (coalesceSecurity s n x a)
      rfl rfl hids hs (pyUpper t')]
    by_cases hT : pyUpper t' = pyUpper tk
    · rw [if_pos hT, hT, hf]
      rfl
    · rw [if_neg hT]
  | none =>
    simp only
    rw [List.find?_append]
    by_cases hT : pyUpper t' = pyUpper tk
    · rw [if_pos hT, hT, hf]
      simp
    · rw [if_neg hT]
      have hnew : (List.find? (fun y => y.ticker == pyUpper t')
          ([⟨db.next_security_id, pyUpper tk, n, x, a⟩] : List Security)) = none := by
        simp only [List.find?_cons, List.find?_nil]
        have hbe : ((⟨db.next_security_id, pyUpper tk, n, x, a⟩ : Security).ticker
            == pyUpper t') = false := by
          simp only [beq_eq_false_iff_ne]
          exact fun hc => hT (by rw [← hc])
        rw [hbe]
      rw [hnew, Option.or_none]

theorem upsert_security_wf (db : DB) (tk : String) (n x : Option String)
    (a : String) (hwf : DBWF db) : DBWF (upsert_security db tk n x a).2 := by
  obtain ⟨hids, htks, hbound⟩ := hwf
  simp only [upsert_security]
  cases hf : db.securities.find? fun s => s.ticker == pyUpper tk with
  | some s =>
    have hs := List.mem_of_find?_eq_some hf
    obtain ⟨h1, h2, h3⟩ :=
      map_replace_wf db.securities s (coalesceSecurity s n x a)
        db.next_security_id rfl rfl hs hids htks hbound
    exact ⟨h1, h2, h3⟩
  | none =>
    have hnotin : pyUpper tk ∉ db.securities.map Security.ticker := by
      intro hmem
      obtain ⟨y, hy, hyt⟩ := List.mem_map.mp hmem
      exact absurd (by simp [hyt] : (y.ticker == pyUpper tk) = true)
        (by simpa using List.find?_eq_none.mp hf y hy)
    refine ⟨?_, ?_, ?_⟩
    · rw [List.map_append, List.nodup_append]
      refine ⟨hids, by simp, ?_⟩
      intro k hk hk'
      simp only [List.map_cons, List.map_nil, List.mem_singleton] at hk'
      obtain ⟨y, hy, rfl⟩ := List.mem_map.mp hk
      have := hbound y hy
      omega
    · rw [List.map_append, List.nodup_append]
      refine ⟨htks, by simp, ?_⟩
      intro k hk hk'
      simp only [List.map_cons, List.map_nil, List.mem_singleton] at hk'
      subst hk'
      exact hnotin hk
    · intro y hy
      rcases List.mem_append.mp hy with hy | hy
      · exact Nat.lt_succ_of_lt (hbound y hy)
      · simp only [List.mem_singleton] at hy
        subst hy
        exact Nat.lt_succ_self _
  

theorem get_security_id_inj (db : DB) (hwf : DBWF db) (t u : String) (a b : Nat)
    (ht : get_security_id db t = some a) (hu : get_security_id db u = some b)
    (hne : pyUpper t ≠ pyUpper u) : a ≠ b := by
  obtain ⟨hids, _, _⟩ := hwf
  unfold get_security_id at ht hu
  obtain ⟨xt, hxt, hxta⟩ := Option.map_eq_some'.mp ht
  obtain ⟨xu, hxu, hxub⟩ := Option.map_eq_some'.mp hu
  have hxt_mem := List.mem_of_find?_eq_some hxt
  have hxu_mem := List.mem_of_find?_eq_some hxu
  have hxt_tk : xt.ticker = pyUpper t := by simpa using List.find?_some hxt
  have hxu_tk : xu.ticker = pyUpper u := by simpa using List.find?_some hxu
  intro hab
  have hxy : xt = xu :=
    List.inj_on_of_nodup_map hids hxt_mem hxu_mem (by rw [hxta, hxub, hab])
  apply hne
  rw [← hxt_tk, ← hxu_tk, hxy]

-- ## Lemmas about `backfillUpsert`, `insert_prices` preservation, and the loop body

theorem backfillUpsert_daily_price (deps : SyncDeps) (tk : String) (db : DB) :
    (backfillUpsert deps tk db).2.daily_price = db.daily_price := by
  unfold backfillUpsert
  cases deps.client_metadata tk with
  | ok m => exact upsert_security_daily_price db tk m.name m.exchange "Stock"
  | error e => exact upsert_security_daily_price db tk none none "Stock"

theorem backfillUpsert_get (deps : SyncDeps) (tk t' : String) (db : DB)
    (hwf : DBWF db) :
    get_security_id (backfillUpsert deps tk db).2 t'
      = if pyUpper t' = pyUpper tk
        then some (backfillUpsert deps tk db).1
        else get_security_id db t' := by
  unfold backfillUpsert
  cases deps.client_metadata tk with
  | ok m => exact upsert_security_get db tk t' m.name m.exchange "Stock" hwf
  | error e => exact upsert_security_get db tk t' none none "Stock" hwf

theorem backfillUpsert_wf (deps : SyncDeps) (tk : String) (db : DB)
    (hwf : DBWF db) : DBWF (backfillUpsert deps tk db).2 := by
  unfold backfillUpsert
  cases deps.client_metadata tk with
  | ok m => exact upsert_security_wf db tk m.name m.exchange "Stock" hwf
  | error e => exact upsert_security_wf db tk none none "Stock" hwf

theorem insert_prices_preserves_other (sid : Nat) (df : List Bar)
    (store : List PriceRow) (r : PriceRow) (hr : r ∈ store)
    (hne : r.security_id ≠ sid) : r ∈ (insert_prices sid df store).2 := by
  by_cases hemp : df.isEmpty
  · simpa [insert_prices, hemp] using hr
  · have hmem : r ∈ store.filter
        fun rr => !(matchesDelete sid (df.map Bar.price_date) rr) := by
      apply List.mem_filter.mpr
      refine ⟨hr, ?_⟩
      simp [matchesDelete, hne]
    rw [insert_prices_snd sid df store hemp]
    by_cases hok : ((df.map fun b => PriceRow.mk sid b).map rowKey).Nodup
    · rw [if_pos hok]
      exact List.mem_append_left _ hmem
    · rw [if_neg hok]
      exact hmem

theorem insert_prices_eq_of_nodup (sid : Nat) (df : List Bar)
    (store : List PriceRow) (hne : ¬ df.isEmpty)
    (hnd : (df.map Bar.price_date).Nodup) :
    insert_prices sid df store =
      (.ok df.length,
        (store.filter fun r => !(matchesDelete sid (df.map Bar.price_date) r))
          ++ df.map fun b => PriceRow.mk sid b) := by
  simp only [insert_prices, hne, if_false, Bool.false_eq_true]
  rw [if_pos (insertOk_of_nodup_dates sid df store hnd)]

theorem backfillBody_securities (deps : SyncDeps) (sD eD : Int) (total i : Nat)
    (tk : String) (acc : RunAcc) :
    (backfillBody deps sD eD total i tk acc).1.db.securities
        = (backfillUpsert deps tk acc.db).2.securities ∧
    (backfillBody deps sD eD total i tk acc).1.db.next_security_id
        = (backfillUpsert deps tk acc.db).2.next_security_id := by
  unfold backfillBody
  cases deps.client_prices tk sD eD with
  | error e => exact ⟨rfl, rfl⟩
  | ok df =>
    by_cases hemp : df.isEmpty
    · simp [hemp]
    · simp only [hemp, Bool.false_eq_true, if_false]
      rcases hip : insert_prices (backfillUpsert deps tk acc.db).1 df
          (backfillUpsert deps tk acc.db).2.daily_price with ⟨res, dp⟩
      cases res <;> simp [hip]

theorem get_security_id_eq_of_securities {db db' : DB}
    (h : db'.securities = db.securities) (t : String) :
    get_security_id db' t = get_security_id db t := by
  unfold get_security_id
  rw [h]

theorem DBWF_of_securities {db db' : DB} (hs : db'.securities = db.securities)
    (hn : db'.next_security_id = db.next_security_id) (hwf : DBWF db) :
    DBWF db' := by
  unfold DBWF
  rw [hs, hn]
  exact hwf

theorem backfillBody_preserves_row (deps : SyncDeps) (sD eD : Int)
    (total i : Nat) (tk : String) (acc : RunAcc) (r : PriceRow)
    (hr : r ∈ acc.db.daily_price)
    (hne : r.security_id ≠ (backfillUpsert deps tk acc.db).1) :
    r ∈ (backfillBody deps sD eD total i tk acc).1.db.daily_price := by
  have hup : (backfillUpsert deps tk acc.db).2.daily_price = acc.db.daily_price :=
    backfillUpsert_daily_price deps tk acc.db
  unfold backfillBody
  cases deps.client_prices tk sD eD with
  | error e => simpa [hup] using hr
  | ok df =>
    by_cases hemp : df.isEmpty
    · simpa [hemp, hup] using hr
    · simp only [hemp, Bool.false_eq_true, if_false]
      have hpres : r ∈ (insert_prices (backfillUpsert deps tk acc.db).1 df
          (backfillUpsert deps tk acc.db).2.daily_price).2 :=
        insert_prices_preserves_other _ df _ r (by rwa [hup]) hne
      rcases hip : insert_prices (backfillUpsert deps tk acc.db).1 df
          (backfillUpsert deps tk acc.db).2.daily_price with ⟨res, dp⟩
      rw [hip] at hpres
      cases res <;> simpa using hpres

theorem backfillBody_good (deps : SyncDeps) (sD eD : Int) (total i : Nat)
    (tk : String) (acc : RunAcc) (df : List Bar)
    (hfetch : deps.client_prices tk sD eD = .ok df)
    (hnd : (df.map Bar.price_date).Nodup) :
    (backfillBody deps sD eD total i tk acc).2 = none ∧
    ∀ b ∈ df, PriceRow.mk (backfillUpsert deps tk acc.db).1 b
      ∈ (backfillBody deps sD eD total i tk acc).1.db.daily_price := by
  unfold backfillBody
  rw [hfetch]
  by_cases hemp : df.isEmpty
  · refine ⟨by simp [hemp], ?_⟩
    rw [List.isEmpty_iff.mp hemp]
    intro b hb
    exact absurd hb (List.not_mem_nil b)
  · simp only [hemp, Bool.false_eq_true, if_false]
    rw [insert_prices_eq_of_nodup _ df _ hemp hnd]
    refine ⟨rfl, ?_⟩
    intro b hb
    simp only
    exact List.mem_append_right _
      (List.mem_map_of_mem (fun b => PriceRow.mk (backfillUpsert deps tk acc.db).1 b) hb)

theorem backfillStep_of_body_none (deps : SyncDeps) (sD eD : Int) (total i : Nat)
    (tk : String) (acc : RunAcc)
    (h : (backfillBody deps sD eD total i tk acc).2 = none) :
    backfillStep deps sD eD total i tk acc = (backfillBody deps sD eD total i tk acc).1 := by
  unfold backfillStep
  rcases hb : backfillBody deps sD eD total i tk acc with ⟨acc', exc⟩
  rw [hb] at h
  simp only at h
  subst h
  rfl

theorem backfillStep_db (deps : SyncDeps) (sD eD : Int) (total i : Nat)
    (tk : String) (acc : RunAcc) :
    (backfillStep deps sD eD total i tk acc).db
      = (backfillBody deps sD eD total i tk acc).1.db := by
  unfold backfillStep
  rcases hb : backfillBody deps sD eD total i tk acc with ⟨acc', exc⟩
  cases exc <;> rfl

/-- Invariant of the `backfill` loop for the batch-isolation scenario:
processing any further tickers preserves well-formedness, records exactly
one error once `bad` has been processed, and keeps every earlier
successful ticker's fetched bars in the store, provided the uppercased
tickers are pairwise distinct. -/
theorem backfill_loop_inv (deps : SyncDeps) (bad e : String) (startD endD : Int)
    (total : Nat)
    (hfail : deps.client_prices bad startD endD = .error e) :
    ∀ (rest : List (Nat × String)) (pre : List String) (acc : RunAcc),
      (∀ p ∈ rest, p.2 ≠ bad → ∃ df,
        deps.client_prices p.2 startD endD = .ok df
          ∧ (df.map Bar.price_date).Nodup) →
      ((pre ++ rest.map Prod.snd).map pyUpper).Nodup →
      DBWF acc.db →
      acc.errors = (if bad ∈ pre then [bad ++ ": " ++ e] else []) →
      (∀ t ∈ pre, t ≠ bad →
        ∃ sid, get_security_id acc.db t = some sid ∧
          ∀ df, deps.client_prices t startD endD = .ok df →
            ∀ b ∈ df, PriceRow.mk sid b ∈ acc.db.daily_price) →
      DBWF (rest.foldl (fun a p => backfillStep deps startD endD total p.1 p.2 a) acc).db ∧
      (rest.foldl (fun a p => backfillStep deps startD endD total p.1 p.2 a) acc).errors
        = (if bad ∈ pre ++ rest.map Prod.snd then [bad ++ ": " ++ e] else []) ∧
      (∀ t ∈ pre ++ rest.map Prod.snd, t ≠ bad →
        ∃ sid, get_security_id
            (rest.foldl (fun a p => backfillStep deps startD endD total p.1 p.2 a) acc).db t
            = some sid ∧
          ∀ df, deps.client_prices t startD endD = .ok df →
            ∀ b ∈ df, PriceRow.mk sid b
              ∈ (rest.foldl (fun a p => backfillStep deps startD endD total p.1 p.2 a) acc).db.daily_price) := by
  intro rest
  induction rest with
  | nil =>
    intro pre acc hgood hnd hwf herr htrack
    simpa using ⟨hwf, herr, htrack⟩
  | cons p rest' ih =>
    obtain ⟨i, u⟩ := p
    intro pre acc hgood hnd hwf herr htrack
    have hdisj : ∀ t ∈ pre, pyUpper t ≠ pyUpper u := by
      intro t ht hequ
      rw [List.map_append, List.nodup_append] at hnd
      exact hnd.2.2 (List.mem_map_of_mem pyUpper ht)
        (by rw [hequ]; simp)
    have hup1 := backfillUpsert_wf deps u acc.db hwf
    have hsec := (backfillBody_securities deps startD endD total i u acc).1
    have hnext := (backfillBody_securities deps startD endD total i u acc).2
    have hdbstep := backfillStep_db deps startD endD total i u acc
    have hwf₁ : DBWF (backfillStep deps startD endD total i u acc).db := by
      rw [hdbstep]
      exact DBWF_of_securities hsec hnext hup1
    have hget₁ : ∀ t', get_security_id (backfillStep deps startD endD total i u acc).db t'
        = if pyUpper t' = pyUpper u then some (backfillUpsert deps u acc.db).1
          else get_security_id acc.db t' := by
      intro t'
      rw [hdbstep, get_security_id_eq_of_securities hsec t',
        backfillUpsert_get deps u t' acc.db hwf]
    have htrack₁ : ∀ t ∈ pre, t ≠ bad →
        ∃ sid, get_security_id (backfillStep deps startD endD total i u acc).db t
            = some sid ∧
          ∀ df, deps.client_prices t startD endD = .ok df →
            ∀ b ∈ df, PriceRow.mk sid b
              ∈ (backfillStep deps startD endD total i u acc).db.daily_price := by
      intro t ht htb
      obtain ⟨sid, hsid, hrows⟩ := htrack t ht htb
      have hne_up : pyUpper t ≠ pyUpper u := hdisj t ht
      refine ⟨sid, ?_, ?_⟩
      · rw [hget₁ t, if_neg hne_up, hsid]
      · intro df hdf b hb
        have hrow := hrows df hdf b hb
        have hgt : get_security_id (backfillUpsert deps u acc.db).2 t = some sid := by
          rw [backfillUpsert_get deps u t acc.db hwf, if_neg hne_up, hsid]
        have hgu : get_security_id (backfillUpsert deps u acc.db).2 u
            = some (backfillUpsert deps u acc.db).1 := by
          rw [backfillUpsert_get deps u u acc.db hwf, if_pos rfl]
        have hsid_ne : sid ≠ (backfillUpsert deps u acc.db).1 :=
          get_security_id_inj _ hup1 t u _ _ hgt hgu hne_up
        rw [hdbstep]
        exact backfillBody_preserves_row deps startD endD total i u acc _ hrow hsid_ne
    rw [List.foldl_cons]
    have hre : pre ++ (((i, u) :: rest').map Prod.snd)
        = (pre ++ [u]) ++ rest'.map Prod.snd := by simp
    rw [hre]
    have hnd' : (((pre ++ [u]) ++ rest'.map Prod.snd).map pyUpper).Nodup := by
      have hl2 : (pre ++ [u]) ++ rest'.map Prod.snd
          = pre ++ u :: rest'.map Prod.snd := by simp
      rw [hl2]
      simpa using hnd
    have hgood' : ∀ p ∈ rest', p.2 ≠ bad → ∃ df,
        deps.client_prices p.2 startD endD = .ok df
          ∧ (df.map Bar.price_date).Nodup :=
      fun p hp => hgood p (List.mem_cons_of_mem _ hp)
    by_cases hu : u = bad
    · subst hu
      have hbadpre : u ∉ pre := fun hbp => (hdisj u hbp) rfl
      have herr_acc : acc.errors = [] := by rw [herr, if_neg hbadpre]
      have herr₁ : (backfillStep deps startD endD total i u acc).errors
          = [u ++ ": " ++ e] := by
        rw [backfillStep_errors_fetch_err deps startD endD total i u acc e hfail,
          herr_acc]
        simp
      apply ih (pre ++ [u]) (backfillStep deps startD endD total i u acc)
        hgood' hnd' hwf₁
      · rw [herr₁, if_pos (by simp)]
      · intro t ht htb
        rcases List.mem_append.mp ht with htp | htu
        · exact htrack₁ t htp htb
        · exact absurd (by simpa using htu) htb
    · obtain ⟨df₀, hdf₀, hnd₀⟩ := hgood (i, u) (List.mem_cons_self (i, u) rest') hu
      obtain ⟨hbnone, hmem₀⟩ :=
        backfillBody_good deps startD endD total i u acc df₀ hdf₀ hnd₀
      have hstep_eq := backfillStep_of_body_none deps startD endD total i u acc hbnone
      have herr₁ : (backfillStep deps startD endD total i u acc).errors
          = acc.errors := by
        rw [hstep_eq, backfillBody_errors_eq]
      apply ih (pre ++ [u]) (backfillStep deps startD endD total i u acc)
        hgood' hnd' hwf₁
      · rw [herr₁, herr]
        have hiff : (bad ∈ pre ++ [u]) ↔ (bad ∈ pre) := by
          rw [List.mem_append, List.mem_singleton]
          constructor
          · rintro (h | h)
            · exact h
            · exact absurd h.symm hu
          · exact Or.inl
        exact (if_congr hiff rfl rfl).symm
      · intro t ht htb
        rcases List.mem_append.mp ht with htp | htu
        · exact htrack₁ t htp htb
        · have htu' : t = u := by simpa using htu
          subst htu'
          refine ⟨(backfillUpsert deps t acc.db).1, ?_, ?_⟩
          · rw [hget₁ t, if_pos rfl]
          · intro df hdf b hb
            have hdfeq : df₀ = df := by
              rw [hdf₀] at hdf
              injection hdf
            subst hdfeq
            rw [hstep_eq]
            exact hmem₀ b hb

theorem get_security_id_complete (db : DB) (a b c d f g : Nat)
    (h : Option String) (t : String) :
    get_security_id (complete_sync_log db a b c d f g h) t = get_security_id db t := rfl

theorem complete_sync_log_daily (db : DB) (a b c d f g : Nat) (h : Option String) :
    (complete_sync_log db a b c d f g h).daily_price = db.daily_price := rfl

/-- C1 counterexample per-ticker isolation as universally stated
fails on case-variant duplicate tickers: with `["aapl", "AAPL",
"BADTICKER"]`, where only `BADTICKER`'s fetch raises and every store
write succeeds, the run reports `symbols_processed = 3` and `errors = 1`,
yet the bar fetched for the non-failing ticker `aapl` is not in the
store: both case variants upsert to the same security (tickers are
uppercased), so the later `AAPL` merge replaced the `aapl` bar at the
same date. -/
theorem backfill_batch_isolation_cex :
    (backfill collideDeps ["aapl", "AAPL", "BADTICKER"] (some 0) (some 5)
        emptyDB).outcome.symbols_processed = 3 ∧
    (backfill collideDeps ["aapl", "AAPL", "BADTICKER"] (some 0) (some 5)
        emptyDB).outcome.errors = some 1 ∧
    collideDeps.client_prices "aapl" 0 5 = .ok [mkBar 1 10] ∧
    (∀ r ∈ (backfill collideDeps ["aapl", "AAPL", "BADTICKER"] (some 0) (some 5)
        emptyDB).db.daily_price, r.bar ≠ mkBar 1 10) :=
  ⟨by decide, by decide, rfl, by decide⟩

/-- C1 (amended) Per-ticker failure isolation: for a ticker list
naming pairwise-distinct securities (uppercased tickers pairwise
distinct) where exactly one ticker's fetch always raises and every other
ticker's fetch succeeds with key-distinct bars (so its store write
succeeds), `backfill` returns `symbols_processed` equal to the list
length and exactly one recorded error, and every bar fetched for the
other tickers is present in the store under that ticker's security id; no
per-ticker exception escapes the loop (the run returns an outcome). -/
theorem backfill_batch_isolation (deps : SyncDeps) (tickers : List String)
    (bad : String) (startO endO : Option Int) (db : DB) (e : String)
    (hwf : DBWF db)
    (hnd : (tickers.map pyUpper).Nodup)
    (hbad : bad ∈ tickers)
    (hfail : ∀ s u, deps.client_prices bad s u = .error e)
    (hok : ∀ t ∈ tickers, t ≠ bad → ∀ s u, ∃ df,
        deps.client_prices t s u = .ok df ∧ (df.map Bar.price_date).Nodup) :
    (backfill deps tickers startO endO db).outcome.symbols_processed
        = tickers.length ∧
    (backfill deps tickers startO endO db).outcome.errors = some 1 ∧
    (∀ t ∈ tickers, t ≠ bad → ∀ df,
      deps.client_prices t (startO.getD (deps.today - 365 * 30))
          (endO.getD deps.today) = .ok df →
      ∃ sid, get_security_id (backfill deps tickers startO endO db).db t
          = some sid ∧
        ∀ b ∈ df, PriceRow.mk sid b
          ∈ (backfill deps tickers startO endO db).db.daily_price) := by
  have henum : tickers.enum.map Prod.snd = tickers := List.enum_map_snd tickers
  have hgood : ∀ p ∈ tickers.enum, p.2 ≠ bad → ∃ df,
      deps.client_prices p.2 (startO.getD (deps.today - 365 * 30))
          (endO.getD deps.today) = .ok df
        ∧ (df.map Bar.price_date).Nodup := by
    intro p hp hne
    have hmem : p.2 ∈ tickers := by
      rw [← henum]
      exact List.mem_map_of_mem Prod.snd hp
    exact hok p.2 hmem hne _ _
  have hinit_wf : DBWF (start_sync_log db "backfill").2 :=
    DBWF_of_securities rfl rfl hwf
  obtain ⟨hfwf, hferr, hftrack⟩ :=
    backfill_loop_inv deps bad e (startO.getD (deps.today - 365 * 30))
      (endO.getD deps.today) tickers.length (hfail _ _) tickers.enum []
      ⟨(start_sync_log db "backfill").2, 0, [], [], []⟩
      hgood
      (by rw [List.nil_append, henum]; exact hnd)
      hinit_wf
      (by simp)
      (fun t ht => absurd ht (List.not_mem_nil t))
  have hbadmem : bad ∈ ([] : List String) ++ tickers.enum.map Prod.snd := by
    rw [List.nil_append, henum]
    exact hbad
  rw [if_pos hbadmem] at hferr
  refine ⟨rfl, ?_, ?_⟩
  · show some ((tickers.enum.foldl
        (fun a p => backfillStep deps (startO.getD (deps.today - 365 * 30))
          (endO.getD deps.today) tickers.length p.1 p.2 a)
        ⟨(start_sync_log db "backfill").2, 0, [], [], []⟩).errors.length) = some 1
    rw [hferr]
    rfl
  · intro t ht htb df hdf
    have ht' : t ∈ ([] : List String) ++ tickers.enum.map Prod.snd := by
      rw [List.nil_append, henum]
      exact ht
    obtain ⟨sid, hsid, hrows⟩ := hftrack t ht' htb
    refine ⟨sid, ?_, ?_⟩
    · show get_security_id (complete_sync_log _ _ _ _ _ _ _ _) t = some sid
      rw [get_security_id_complete]
      exact hsid
    · intro b hb
      show PriceRow.mk sid b ∈ (complete_sync_log _ _ _ _ _ _ _ _).daily_price
      rw [complete_sync_log_daily]
      exact hrows df hdf b hb

/-- C1 witness -/
theorem backfill_batch_isolation_witness :
    DBWF emptyDB ∧ ((["AAPL", "BAD"].map pyUpper).Nodup) ∧
    ("BAD" ∈ ["AAPL", "BAD"]) ∧
    (backfill isoDeps ["AAPL", "BAD"] (some 0) (some 5)
        emptyDB).outcome.symbols_processed = 2 ∧
    (backfill isoDeps ["AAPL", "BAD"] (some 0) (some 5)
        emptyDB).outcome.errors = some 1 := by
  have hok : ∀ t ∈ ["AAPL", "BAD"], t ≠ "BAD" → ∀ s u, ∃ df,
      isoDeps.client_prices t s u = .ok df ∧ (df.map Bar.price_date).Nodup := by
    intro t ht hne s u
    have : t = "AAPL" ∨ t = "BAD" := by simpa using ht
    rcases this with h | h
    · subst h
      exact ⟨[mkBar 1 10], rfl, by decide⟩
    · exact absurd h hne
  obtain ⟨h1, h2, _⟩ :=
    backfill_batch_isolation isoDeps ["AAPL", "BAD"] "BAD" (some 0) (some 5)
      emptyDB "boom" (by decide) (by decide) (by decide) (fun s u => rfl) hok
  exact ⟨by decide, by decide, by decide, h1, h2⟩
